import Mathlib

/-!
Verification development for the logfeller rotating-file writer.

The Go sources embedded here are `whenrotate.go` (schedule parsing, schedule
ordering, nearest-instant resolution) and `file.go` (the `File` handler:
`init`, `calcRotationTimes`, `shouldRotate`, `checkAndRotate`, `rotateOpen`,
`openExistingOrNew`, `trim`).

Modelling conventions:
- `time.Time` is modelled by `GoTime`: an absolute instant in whole seconds
  since January 1, year 1, 00:00:00 UTC (`abs`, the zero value of Go's
  `time.Time`), plus a fixed-offset location `loc` in seconds east of UTC
  (`0` is UTC).  Daylight-saving time is out of scope for the library, so a
  location is just its fixed offset; nanoseconds are dropped because every
  schedule value and every operation used by the library works at whole-second
  granularity.
- Calendar conversions follow Go's `time.Date` exactly: the month is
  normalised with floor division, and out-of-range day/hour/minute/second
  values spill over arithmetically (e.g. Feb 31 becomes Mar 3).  All integer
  divisions in this file use Lean's `/` and `%` on `Int` (euclidean), which
  agree with Go's truncated division on the non-negative operands that occur
  here and with Go's explicit floor-style normalisation for months.
- Go's `os`/`io/ioutil` file-system collaborators are modelled by a pure
  in-memory store `FS` (file name ↦ content, modification time, mode) with a
  fault-injection list `failing` naming the operations that fail, mirroring
  the error returns of `os.Stat`/`os.Rename`/`os.OpenFile`/`os.Remove`/
  `os.MkdirAll`.
- `t.Format(f.BackupTimeFormat)` and `time.Parse(f.BackupTimeFormat, s)` are
  modelled by function-valued fields `backupFmt`/`backupParse` of the handler
  state, since the format engine itself is external to the rotation logic.
-/

namespace Logfeller

/-- Decidable equality for `Except`, used to evaluate concrete parse and
initialisation results. -/
instance exceptDecEq {ε α : Type} [DecidableEq ε] [DecidableEq α] :
    DecidableEq (Except ε α) := fun a b =>
  match a, b with
  | .error e1, .error e2 =>
    if h : e1 = e2 then .isTrue (by rw [h])
    else .isFalse (fun hh => h (Except.error.inj hh))
  | .error _, .ok _ => .isFalse (fun hh => Except.noConfusion hh)
  | .ok _, .error _ => .isFalse (fun hh => Except.noConfusion hh)
  | .ok a1, .ok a2 =>
    if h : a1 = a2 then .isTrue (by rw [h])
    else .isFalse (fun hh => h (Except.ok.inj hh))

/-! ## Go time model -/

/-- A Go `time.Time`: absolute seconds since Jan 1, year 1, 00:00:00 UTC,
together with a fixed-offset location (seconds east of UTC). -/
structure GoTime where
  abs : Int
  loc : Int
deriving DecidableEq, Repr

/-- The zero value of Go's `time.Time`: January 1, year 1, 00:00:00 UTC. -/
def zeroTime : GoTime := ⟨0, 0⟩

/-- Days since Jan 1, year 1 of the civil date (y, m, d), for m ∈ [1,12] and
arbitrary d (day overflow spills into later months, as in Go's `time.Date`).
This is the standard era-based civil-calendar conversion. -/
def daysFromCivil (y m d : Int) : Int :=
  let y' := y - (if m ≤ 2 then 1 else 0)
  let era := y' / 400
  let yoe := y' - era * 400
  let mp := (m + 9) % 12
  let doy := (153 * mp + 2) / 5 + d - 1
  let doe := yoe * 365 + yoe / 4 - yoe / 100 + doy
  era * 146097 + doe - 306

/-- Civil date (y, m, d) of the given number of days since Jan 1, year 1.
Inverse of `daysFromCivil`; the returned month is in [1,12] and the day in
[1,31]. -/
def civilFromDays (z : Int) : Int × Int × Int :=
  let z' := z + 306
  let era := z' / 146097
  let doe := z' - era * 146097
  let yoe := (doe - doe / 1460 + doe / 36524 - doe / 146096) / 365
  let doy := doe - (365 * yoe + yoe / 4 - yoe / 100)
  let mp := (5 * doy + 2) / 153
  let d := doy - (153 * mp + 2) / 5 + 1
  let m := mp + (if mp < 10 then 3 else -9)
  (yoe + era * 400 + (if m ≤ 2 then 1 else 0), m, d)

/-- Go's `time.Date(year, month, day, hour, min, sec, 0, loc)`: the month is
normalised into [1,12] carrying into the year (Go's `norm`), and every other
field is absorbed arithmetically. -/
def timeDate (year month day hour minute second loc : Int) : GoTime :=
  let m := month - 1
  let y := year + m / 12
  let mm := m % 12 + 1
  ⟨daysFromCivil y mm day * 86400 + hour * 3600 + minute * 60 + second - loc, loc⟩

/-- Wall-clock seconds of a `GoTime` in its own location. -/
def GoTime.wall (t : GoTime) : Int := t.abs + t.loc

/-- The civil date (year, month, day) of `t` in its location. -/
def GoTime.civil (t : GoTime) : Int × Int × Int := civilFromDays (t.wall / 86400)

def GoTime.year (t : GoTime) : Int := t.civil.1

def GoTime.month (t : GoTime) : Int := t.civil.2.1

def GoTime.day (t : GoTime) : Int := t.civil.2.2

/-- Seconds elapsed since local midnight. -/
def GoTime.sod (t : GoTime) : Int := t.wall % 86400

def GoTime.hour (t : GoTime) : Int := t.sod / 3600

def GoTime.minute (t : GoTime) : Int := t.sod % 3600 / 60

def GoTime.second (t : GoTime) : Int := t.sod % 60

/-- Go's `t.After(u)`: strict comparison of absolute instants. -/
def GoTime.after (t u : GoTime) : Bool := decide (u.abs < t.abs)

/-- Go's `t.Add(d)` for a duration of `d` seconds. -/
def GoTime.add (t : GoTime) (d : Int) : GoTime := ⟨t.abs + d, t.loc⟩

/-- Go's `t.UTC()`. -/
def GoTime.toUTC (t : GoTime) : GoTime := ⟨t.abs, 0⟩

/-- Go's `t.AddDate(years, months, days)`: re-dates the wall-clock fields. -/
def GoTime.addDate (t : GoTime) (years months days : Int) : GoTime :=
  timeDate (t.year + years) (t.month + months) (t.day + days)
    t.hour t.minute t.second t.loc

/-- Go `daysIn(m, year)`: the number of days in month `m` of `year`, computed
as the day component of `time.Date(year, m+1, 0, ...)` (day 0 of the next
month). -/
def daysIn (m year : Int) : Int := (timeDate year (m + 1) 0 0 0 0 0).day

/-! ## whenrotate.go -/

/-- `WhenRotate` is a string in Go (`"h"`, `"d"`, `"m"`, `"y"`). -/
abbrev WhenRotate := String

/-- ASCII lowering of one character.  `strings.ToLower` performs Unicode
simple case folding; the only characters the accepted set cares about are
ASCII, and no non-ASCII character case-folds into `h`/`d`/`m`/`y`, so ASCII
lowering is faithful for every property stated below. -/
def lowerChar (c : Char) : Char :=
  if 65 ≤ c.toNat ∧ c.toNat ≤ 90 then Char.ofNat (c.toNat + 32) else c

/-- `WhenRotate.lower`: `strings.ToLower`. -/
def whenLower (r : WhenRotate) : WhenRotate := ⟨r.data.map lowerChar⟩

/-- `WhenRotate.valid` as a boolean (Go returns a non-nil error exactly when
this is false). -/
def whenValid (r : WhenRotate) : Bool :=
  r == "h" || r == "d" || r == "m" || r == "y"

/-- `timeSchedule`: the parsed rotation offset. -/
structure timeSchedule where
  month : Int := 0
  day : Int := 0
  hour : Int := 0
  minute : Int := 0
  second : Int := 0
deriving DecidableEq, Repr

/-- `timeSchedule.approxDuration` in seconds (Go computes nanoseconds; the
scale factor does not affect any comparison): month ≈ 30 days, plus days,
hours, minutes, seconds. -/
def approxDuration (s : timeSchedule) : Int :=
  s.month * 2592000 + s.day * 86400 + s.hour * 3600 + s.minute * 60 + s.second

/-- `WhenRotate.interval` in seconds: 1 hour, 24 hours, the number of days of
the current month, or 365 days; the Go `default` branch returns one day. -/
def interval (r : WhenRotate) (t : GoTime) : Int :=
  if r = "h" then 3600
  else if r = "d" then 86400
  else if r = "m" then daysIn t.month t.year * 86400
  else if r = "y" then 365 * 86400
  else 86400

/-- `WhenRotate.baseRotateTime`: the default offset when no schedule strings
are supplied. -/
def baseRotateTime (r : WhenRotate) : timeSchedule :=
  if r = "h" ∨ r = "d" then {}
  else if r = "m" then { day := 1 }
  else if r = "y" then { day := 1, month := 1 }
  else { day := 1, month := 1 }

/-- `WhenRotate.nearestScheduledTime`: substitute the schedule's fields into
the current recurrence period of `currentTime` (the Go `default` branch
returns `currentTime` itself). -/
def nearestScheduledTime (r : WhenRotate) (currentTime : GoTime)
    (sch : timeSchedule) : GoTime :=
  let y := currentTime.year
  let mo := currentTime.month
  let d := currentTime.day
  let h := currentTime.hour
  let loc := currentTime.loc
  if r = "h" then timeDate y mo d h sch.minute sch.second loc
  else if r = "d" then timeDate y mo d sch.hour sch.minute sch.second loc
  else if r = "m" then timeDate y mo sch.day sch.hour sch.minute sch.second loc
  else if r = "y" then timeDate y sch.month sch.day sch.hour sch.minute sch.second loc
  else currentTime

/-- `WhenRotate.addTime`: add `n` hours/days/months/years (the Go `default`
branch returns `t`). -/
def addTime (r : WhenRotate) (t : GoTime) (n : Int) : GoTime :=
  if r = "h" then t.add (n * 3600)
  else if r = "d" then t.addDate 0 0 n
  else if r = "m" then t.addDate 0 n 0
  else if r = "y" then t.addDate n 0 0
  else t

/-- The distinct error returns of `WhenRotate.parseTimeSchedule`, keeping the
out-of-range value where Go interpolates it into the message. -/
inductive ParseErr where
  | badWhen : ParseErr
  | badFormat : ParseErr
  | badMonth : Int → ParseErr
  | badDay : Int → ParseErr
  | badHour : Int → ParseErr
  | badMinute : Int → ParseErr
  | badSecond : Int → ParseErr
deriving DecidableEq, Repr

/-- Numeric value of a two-digit group (`strconv.Atoi` on a `\d{2}` match). -/
def twoDigits (a b : Char) : Int := (a.toNat - 48 : Int) * 10 + ((b.toNat : Int) - 48)

/-- Field range validation of `parseTimeSchedule`, applied to the submatches
in the order of the unit's regex groups (months, days, hours, minutes,
seconds); the first out-of-range field wins, exactly as the Go loop over
`SubexpNames` does. -/
def checkRanges (checkMonth checkDay checkHour : Bool)
    (mo d h mi s : Int) : Except ParseErr timeSchedule :=
  if checkMonth ∧ (mo < 1 ∨ mo > 12) then .error (.badMonth mo)
  else if checkDay ∧ (d < 1 ∨ d > 31) then .error (.badDay d)
  else if checkHour ∧ (h < 0 ∨ h > 23) then .error (.badHour h)
  else if mi < 0 ∨ mi > 59 then .error (.badMinute mi)
  else if s < 0 ∨ s > 59 then .error (.badSecond s)
  else .ok { month := if checkMonth then mo else 0
             day := if checkDay then d else 0
             hour := if checkHour then h else 0
             minute := mi
             second := s }

/-- `WhenRotate.parseTimeSchedule`: match the unit's fixed-width pattern
(`MM:SS`, `HHMM:SS`, `DD HHMM:SS`, `mmDD HHMM:SS`), then range-check each
captured field.  A shape mismatch is the Go "invalid offset passed in" error;
an invalid unit is the Go "invalid rotation interval specified" error. -/
def parseTimeSchedule (r : WhenRotate) (offsetStr : String) :
    Except ParseErr timeSchedule :=
  if r = "h" then
    match offsetStr.data with
    | [m1, m2, c, s1, s2] =>
      if m1.isDigit ∧ m2.isDigit ∧ c = ':' ∧ s1.isDigit ∧ s2.isDigit then
        checkRanges false false false 0 0 0 (twoDigits m1 m2) (twoDigits s1 s2)
      else .error .badFormat
    | _ => .error .badFormat
  else if r = "d" then
    match offsetStr.data with
    | [h1, h2, m1, m2, c, s1, s2] =>
      if h1.isDigit ∧ h2.isDigit ∧ m1.isDigit ∧ m2.isDigit ∧ c = ':' ∧
          s1.isDigit ∧ s2.isDigit then
        checkRanges false false true 0 0 (twoDigits h1 h2) (twoDigits m1 m2)
          (twoDigits s1 s2)
      else .error .badFormat
    | _ => .error .badFormat
  else if r = "m" then
    match offsetStr.data with
    | [d1, d2, sp, h1, h2, m1, m2, c, s1, s2] =>
      if d1.isDigit ∧ d2.isDigit ∧ sp = ' ' ∧ h1.isDigit ∧ h2.isDigit ∧
          m1.isDigit ∧ m2.isDigit ∧ c = ':' ∧ s1.isDigit ∧ s2.isDigit then
        checkRanges false true true 0 (twoDigits d1 d2) (twoDigits h1 h2)
          (twoDigits m1 m2) (twoDigits s1 s2)
      else .error .badFormat
    | _ => .error .badFormat
  else if r = "y" then
    match offsetStr.data with
    | [n1, n2, d1, d2, sp, h1, h2, m1, m2, c, s1, s2] =>
      if n1.isDigit ∧ n2.isDigit ∧ d1.isDigit ∧ d2.isDigit ∧ sp = ' ' ∧
          h1.isDigit ∧ h2.isDigit ∧ m1.isDigit ∧ m2.isDigit ∧ c = ':' ∧
          s1.isDigit ∧ s2.isDigit then
        checkRanges true true true (twoDigits n1 n2) (twoDigits d1 d2)
          (twoDigits h1 h2) (twoDigits m1 m2) (twoDigits s1 s2)
      else .error .badFormat
    | _ => .error .badFormat
  else .error .badWhen

/-! ## file.go: initialisation -/

/-- The exported configuration fields of `File` (the `Filename` default and
the `directory`/`fileBase`/`ext` path split use `os`/`filepath`, which are
external collaborators; the split results appear as fields of `RotFile`
below). -/
structure FileConfig where
  When : String := ""
  RotationSchedule : List String := []
  UseLocal : Bool := false
  Backups : Int := 0
  BackupTimeFormat : String := ""
deriving DecidableEq, Repr

/-- The errors `File.init` can set: an invalid `When`, or a rotation-schedule
string that failed to parse (with the offending string, as in the Go error
context). -/
inductive InitErr where
  | invalidWhen : String → InitErr
  | badSchedule : String → ParseErr → InitErr
deriving DecidableEq, Repr

/-- The loop of `File.init` that parses each schedule string, stopping at the
first failure. -/
def parseSchedules (w : WhenRotate) : List String → Except InitErr (List timeSchedule)
  | [] => .ok []
  | s :: rest =>
    match parseTimeSchedule w s with
    | .error e => .error (.badSchedule s e)
    | .ok sch =>
      match parseSchedules w rest with
      | .error e => .error e
      | .ok schs => .ok (sch :: schs)

/-- The comparison used to sort the parsed schedule (`timeSchedules.Less`
compares `approxDuration`). -/
def schedLe (a b : timeSchedule) : Prop := approxDuration a ≤ approxDuration b

instance : DecidableRel schedLe := fun _ _ => Int.decLe _ _

/-- The schedule-relevant part of a successfully initialised `File`. -/
structure InitFile where
  whenR : WhenRotate
  timeRotationSchedule : List timeSchedule
  UseLocal : Bool
  Backups : Int
  BackupTimeFormat : String
deriving DecidableEq, Repr

/-- `File.init` (the configuration-validation part): default an empty `When`
to `Day`, lower-case and validate it, parse every schedule string, inject the
unit's `baseRotateTime` when no schedule strings were supplied, sort by
`approxDuration`, and default the backup time format.  Go sorts in place with
`sort.Sort` (unstable); the embedding uses a stable insertion sort, which
produces one particular list sorted by `approxDuration`, the property the
code relies on. -/
def fileInit (c : FileConfig) : Except InitErr InitFile :=
  let w := if c.When = "" then "d" else whenLower c.When
  if whenValid w then
    match parseSchedules w c.RotationSchedule with
    | .error e => .error e
    | .ok schs =>
      let schs := if c.RotationSchedule = [] then [baseRotateTime w] else schs
      .ok { whenR := w
            timeRotationSchedule := List.insertionSort schedLe schs
            UseLocal := c.UseLocal
            Backups := c.Backups
            BackupTimeFormat :=
              if c.BackupTimeFormat = "" then ".2006-01-02T1504-05"
              else c.BackupTimeFormat }
  else .error (.invalidWhen w)

/-! ## file.go: the file-system collaborator

`os`/`ioutil` operations are modelled by a pure in-memory directory (the
handler works inside the single directory of `f.Filename`).  The `failing`
list injects the I/O errors those operations can return. -/

/-- The file-system operations that can fail. -/
inductive FsOp where
  | statOp : FsOp
  | renameOp : FsOp
  | openOp : FsOp
  | removeOp : FsOp
  | mkdirOp : FsOp
deriving DecidableEq, Repr

/-- One directory entry: content bytes (as a string), modification time and
file mode. -/
structure FileData where
  content : String
  modTime : GoTime
  mode : Int
deriving DecidableEq, Repr

/-- The in-memory directory. -/
structure FS where
  entries : List (String × FileData)
  failing : List FsOp
deriving DecidableEq, Repr

def fsLookup (fs : FS) (name : String) : Option FileData :=
  (fs.entries.find? (fun e => e.1 == name)).map (·.2)

/-- Create or overwrite an entry (in place for an existing name). -/
def setEntries : List (String × FileData) → String → FileData → List (String × FileData)
  | [], n, d => [(n, d)]
  | (k, v) :: rest, n, d =>
    if k == n then (n, d) :: rest else (k, v) :: setEntries rest n d

def fsSet (fs : FS) (name : String) (d : FileData) : FS :=
  ⟨setEntries fs.entries name d, fs.failing⟩

def fsRemoveEntry (fs : FS) (name : String) : FS :=
  ⟨fs.entries.eraseP (fun e => e.1 == name), fs.failing⟩

/-- `os.Stat`: an injected failure is a non-`IsNotExist` error; otherwise the
entry, `none` meaning `IsNotExist`. -/
def fsStat (fs : FS) (name : String) : Except FsOp (Option FileData) :=
  if fs.failing.contains FsOp.statOp then .error FsOp.statOp
  else .ok (fsLookup fs name)

/-- `os.Rename` (in `rotateOpen` it is only called when the destination does
not exist). -/
def fsRename (fs : FS) (src dst : String) : Except FsOp FS :=
  if fs.failing.contains FsOp.renameOp then .error FsOp.renameOp
  else
    match fsLookup fs src with
    | none => .error FsOp.renameOp
    | some d => .ok (fsSet (fsRemoveEntry fs src) dst d)

/-! ## file.go: the rotation state machine -/

/-- Go `fileOpenMode os.FileMode = 0644`. -/
def fileOpenMode : Int := 420

/-- The handler state carried across `Write`/`Rotate` calls: the init-derived
configuration, the path split (`directory` is elided — all names live in the
one modelled directory), the backup-format collaborators, and the mutable
fields `rotateAt`, `prevRotateAt` and `file != nil`. -/
structure RotFile where
  filename : String
  fileBase : String
  ext : String
  whenR : WhenRotate
  schedule : List timeSchedule
  useLocal : Bool
  backups : Int
  backupFmt : GoTime → String
  backupParse : String → Option GoTime
  rotateAt : GoTime
  prevRotateAt : GoTime
  fileOpen : Bool

/-- `File.time`: convert to UTC unless `UseLocal`. -/
def rotTime (f : RotFile) (t : GoTime) : GoTime :=
  if f.useLocal then t else t.toUTC

/-- The `for i, sch := range timeSchedules` loop of `calcRotationTimes`:
`next` is the accumulator Go assigns to `prev` at the top of each iteration;
`lastOff` is `lastOffsetToCheck`, already computed from the first schedule
entry (Go assigns it during iteration 0; it only depends on the first entry,
so it is hoisted here). -/
def calcLoop (r : WhenRotate) (t : GoTime) :
    List timeSchedule → GoTime → GoTime → GoTime × GoTime
  | [], next, lastOff =>
    if lastOff.after t then (next, lastOff)
    else (t.add (-(interval r t)), t.add (interval r t))
  | sch :: rest, next, lastOff =>
    let nxt := nearestScheduledTime r t sch
    if nxt.after t then (next, nxt) else calcLoop r t rest nxt lastOff

/-- `File.calcRotationTimes`.  Go indexes
`timeSchedules[len(timeSchedules)-1]`, which panics on an empty schedule;
the embedding returns `none` there (the init invariant rules it out). -/
def calcRotationTimes (f : RotFile) (t0 : GoTime) : Option (GoTime × GoTime) :=
  let t := rotTime f t0
  let r := f.whenR
  match f.schedule with
  | [] => none
  | s0 :: rest =>
    let lastSch := (s0 :: rest).getLast (List.cons_ne_nil s0 rest)
    let firstOffsetToCheck := addTime r (nearestScheduledTime r t lastSch) (-1)
    if firstOffsetToCheck.after t then some (zeroTime, firstOffsetToCheck)
    else
      let lastOffsetToCheck := addTime r (nearestScheduledTime r t s0) 1
      some (calcLoop r t (s0 :: rest) firstOffsetToCheck lastOffsetToCheck)

/-- `File.filenameWithTimestamp` (the directory join is elided). -/
def filenameWithTimestamp (f : RotFile) (t : GoTime) : String :=
  f.fileBase ++ f.backupFmt t ++ f.ext

/-- `File.shouldRotate`. -/
def shouldRotate (f : RotFile) (now : GoTime) : Bool :=
  (rotTime f now).after f.rotateAt

/-- The final `os.OpenFile(f.Filename, O_WRONLY|O_CREATE|O_APPEND, mode)` of
`rotateOpen`: create an empty active file when none exists, and record the
open handle. -/
def finishOpen (f : RotFile) (now : GoTime) (fs : FS) (mode : Int) :
    RotFile × FS × Option FsOp :=
  if fs.failing.contains FsOp.openOp then (f, fs, some FsOp.openOp)
  else
    match fsLookup fs f.filename with
    | some _ => ({ f with fileOpen := true }, fs, none)
    | none =>
      ({ f with fileOpen := true }, fsSet fs f.filename ⟨"", now, mode⟩, none)

/-- `File.rotateOpen`: make the directory, and if the active file is
non-empty, move it to the backup name derived from `prevRotateAt` — renaming
when no backup of that name exists, appending its content to the existing
backup and removing it otherwise (the remove error is ignored) — then
(re)create the active file.  On an error return the store reflects the
operations already performed. -/
def rotateOpen (f : RotFile) (now : GoTime) (fs : FS) :
    RotFile × FS × Option FsOp :=
  if fs.failing.contains FsOp.mkdirOp then (f, fs, some FsOp.mkdirOp)
  else
    match fsStat fs f.filename with
    | .error _ => finishOpen f now fs fileOpenMode
    | .ok none => finishOpen f now fs fileOpenMode
    | .ok (some info) =>
      if 0 < info.content.length then
        let mode := info.mode
        let dst := filenameWithTimestamp f (rotTime f f.prevRotateAt)
        let e1 := fsStat fs f.filename
        let e2 := fsStat fs dst
        let origNonEmpty :=
          match e1 with
          | .ok (some d) => decide (0 < d.content.length)
          | _ => false
        if origNonEmpty then
          match e2 with
          | .ok none =>
            match fsRename fs f.filename dst with
            | .error e => (f, fs, some e)
            | .ok fs2 => finishOpen f now fs2 mode
          | .ok (some dstD) =>
            if fs.failing.contains FsOp.openOp then (f, fs, some FsOp.openOp)
            else
              match fsLookup fs f.filename with
              | none => (f, fs, some FsOp.openOp)
              | some orig =>
                let fs2 := fsSet fs dst
                  { dstD with content := dstD.content ++ orig.content
                              modTime := now }
                let fs3 :=
                  if fs2.failing.contains FsOp.removeOp then fs2
                  else fsRemoveEntry fs2 f.filename
                finishOpen f now fs3 mode
          | .error _ => finishOpen f now fs mode
        else finishOpen f now fs mode
      else finishOpen f now fs fileOpenMode

/-- `File.rotate`: close the active handle, then `rotateOpen`.  Closing an
in-memory handle cannot fail; the asynchronous `triggerTrim` only sends on a
channel and is modelled by the separate `trim` below. -/
def rotateStep (f : RotFile) (now : GoTime) (fs : FS) :
    RotFile × FS × Option FsOp :=
  rotateOpen { f with fileOpen := false } now fs

/-- `File.checkAndRotate`, instrumented with whether a rotation was attempted
(the returned `Bool`).  Note the Go code calls `updateRotateAt` with the
freshly computed pair even when `rotate` returned an error.  `none` models
the panic of `calcRotationTimes` on an empty schedule. -/
def checkAndRotate (f : RotFile) (now : GoTime) (fs : FS) :
    Option (RotFile × FS × Bool × Option FsOp) :=
  if shouldRotate f now then
    let r := rotateStep f now fs
    match calcRotationTimes r.1 now with
    | none => none
    | some (p, n) =>
      some ({ r.1 with prevRotateAt := p, rotateAt := n }, r.2.1, true, r.2.2)
  else some (f, fs, false, none)

/-- `File.openExistingOrNew`, instrumented like `checkAndRotate`.  The
initial `triggerTrim` is asynchronous and modelled separately by `trim`. -/
def openExistingOrNew (f : RotFile) (now : GoTime) (fs : FS) :
    Option (RotFile × FS × Bool × Option FsOp) :=
  match fsStat fs f.filename with
  | .error _ => some (f, fs, false, some FsOp.statOp)
  | .ok none =>
    match calcRotationTimes f now with
    | none => none
    | some (p, n) =>
      let f1 := { f with prevRotateAt := p, rotateAt := n }
      let r := rotateOpen f1 now fs
      some (r.1, r.2.1, false, r.2.2)
  | .ok (some info) =>
    match calcRotationTimes f info.modTime with
    | none => none
    | some (p, n) =>
      let f1 := { f with prevRotateAt := p, rotateAt := n }
      match checkAndRotate f1 now fs with
      | none => none
      | some (f2, fs2, rotated, err) =>
        if err.isNone && f2.fileOpen then some (f2, fs2, rotated, none)
        else if fs2.failing.contains FsOp.openOp then
          let r := rotateOpen f2 now fs2
          some (r.1, r.2.1, rotated, r.2.2)
        else
          match fsLookup fs2 f.filename with
          | some _ => some ({ f2 with fileOpen := true }, fs2, rotated, none)
          | none =>
            some ({ f2 with fileOpen := true },
                  fsSet fs2 f.filename ⟨"", now, fileOpenMode⟩, rotated, none)

/-! ## file.go: trim -/

/-- Go `strings.TrimPrefix`. -/
def goTrimL (s pre : String) : String :=
  if pre.data.isPrefixOf s.data then ⟨s.data.drop pre.data.length⟩ else s

/-- Go `strings.TrimSuffix`. -/
def goTrimR (s suf : String) : String :=
  if suf.data.isSuffixOf s.data then
    ⟨s.data.take (s.data.length - suf.data.length)⟩
  else s

/-- The filter of `File.trim`: prefix `fileBase`, suffix `ext`, and a middle
segment that `time.Parse` accepts. -/
def backupEntry (f : RotFile) (name : String) : Option (GoTime × String) :=
  if f.fileBase.data.isPrefixOf name.data ∧ f.ext.data.isSuffixOf name.data then
    match f.backupParse (goTrimR (goTrimL name f.fileBase) f.ext) with
    | some t => some (t, name)
    | none => none
  else none

/-- A directory entry name that `trim` treats as a backup of this handler. -/
def isBackupName (f : RotFile) (name : String) : Bool := (backupEntry f name).isSome

/-- Byte-wise lexicographic comparison of names (UTF-8 byte order agrees
with code-point order). -/
def charListLeB : List Char → List Char → Bool
  | [], _ => true
  | _ :: _, [] => false
  | a :: as, b :: bs =>
    if a.toNat < b.toNat then true
    else if b.toNat < a.toNat then false
    else charListLeB as bs

/-- Lexicographic order on names, the order in which `ioutil.ReadDir` lists
the directory. -/
def nameLe (a b : String) : Prop := charListLeB a.data b.data = true

instance : DecidableRel nameLe := fun _ _ => Bool.decEq _ _

/-- The descending-by-timestamp order of `sort.SliceStable(backupFIs, ...)`
(`less i j ↔ t_i.After(t_j)`; sorting a list stably with a total preorder is
what both `sort.SliceStable` and insertion sort produce). -/
def newerLe (a b : GoTime × String) : Prop := b.1.abs ≤ a.1.abs

instance : DecidableRel newerLe := fun _ _ => Int.decLe _ _

/-- One `os.Remove` of the trim loop, collecting the error (an injected
failure, or removing a name that is not there). -/
def trimRemove (acc : FS × List FsOp) (p : GoTime × String) : FS × List FsOp :=
  if acc.1.failing.contains FsOp.removeOp then (acc.1, acc.2 ++ [FsOp.removeOp])
  else
    match fsLookup acc.1 p.2 with
    | none => (acc.1, acc.2 ++ [FsOp.removeOp])
    | some _ => (fsRemoveEntry acc.1 p.2, acc.2)

/-- `File.trim`: a no-op when `Backups ≤ 0`; otherwise list the directory,
keep the entries matching `fileBase`/`ext` whose middle segment parses, sort
them newest-first (stable), and remove all but the first `Backups` of them,
collecting the individual removal errors. -/
def trim (f : RotFile) (fs : FS) : FS × List FsOp :=
  if f.backups ≤ 0 then (fs, [])
  else
    let names := List.insertionSort nameLe (fs.entries.map Prod.fst)
    let backupFIs := names.filterMap (backupEntry f)
    let sorted := List.insertionSort newerLe backupFIs
    let toRemove :=
      if f.backups < (sorted.length : Int) then sorted.drop f.backups.toNat
      else []
    toRemove.foldl trimRemove (fs, [])

/-! ## Concrete fixtures used by witnesses and counterexamples -/

/-- A concrete backup-time format collaborator: a dot followed by the decimal
absolute second count (injective on instants, like Go reference formats that
include a full date-time). -/
def fmtAbs : GoTime → String := fun t => "." ++ toString t.abs

def digitsVal : List Char → Nat → Option Nat
  | [], acc => some acc
  | c :: rest, acc =>
    if c.isDigit then digitsVal rest (acc * 10 + (c.toNat - 48)) else none

/-- The parse collaborator matching `fmtAbs`. -/
def parseAbs (s : String) : Option GoTime :=
  match s.data with
  | '.' :: c :: rest => (digitsVal (c :: rest) 0).map (fun v => ⟨(v : Nat), 0⟩)
  | _ => none

def schedDay4 : List timeSchedule :=
  [{ hour := 1 }, { hour := 8, minute := 30 }, { hour := 14 }, { hour := 19 }]

/-- The handler of the Go test `rotate_daily_with_multiple_schedules`:
`foo.log`, daily unit, offsets 01:00 / 08:30 / 14:00 / 19:00, local time. -/
def fileDay : RotFile :=
  { filename := "foo.log", fileBase := "foo", ext := ".log"
    whenR := "d", schedule := schedDay4
    useLocal := true, backups := 0
    backupFmt := fmtAbs, backupParse := parseAbs
    rotateAt := zeroTime, prevRotateAt := zeroTime, fileOpen := false }

/-- A handler with `When = Month` and the single offset day 31. -/
def fileMonth31 : RotFile :=
  { filename := "foo.log", fileBase := "foo", ext := ".log"
    whenR := "m", schedule := [{ day := 31 }]
    useLocal := false, backups := 0
    backupFmt := fmtAbs, backupParse := parseAbs
    rotateAt := zeroTime, prevRotateAt := zeroTime, fileOpen := false }

def t0809_1400 : GoTime := timeDate 2021 8 9 14 0 0 0

def t0809_1600 : GoTime := timeDate 2021 8 9 16 0 0 0

def t0809_1900 : GoTime := timeDate 2021 8 9 19 0 0 0

def t0810_0000 : GoTime := timeDate 2021 8 10 0 0 0 0

def t0810_0100 : GoTime := timeDate 2021 8 10 1 0 0 0

/-- Pre-registered product instances (the automatic search fails to
assemble this particular nesting in one step). -/
instance : DecidableEq (Option FileData × Option FileData) := inferInstance

instance : DecidableEq (Option FsOp × Option FileData × Option FileData) := inferInstance

/-- The daily fixture due for a rotation at `t0810_0000`. -/
def fC9 : RotFile := { fileDay with prevRotateAt := t0809_1400, rotateAt := t0809_1900 }

def fsC9 : FS := ⟨[("foo.log", ⟨"X", t0809_1600, 420⟩)], []⟩

/-- The handler and store after `fC9`'s first rotation check at `t0810_0000`
(rotation performed: the active file was renamed to the backup name derived
from `prevRotateAt`, a fresh active file was created, and the pair was
recomputed from `now`). -/
def fC9' : RotFile :=
  { fileDay with prevRotateAt := t0809_1900, rotateAt := t0810_0100, fileOpen := true }

def fsC9' : FS :=
  ⟨[("foo" ++ fmtAbs t0809_1400 ++ ".log", ⟨"X", t0809_1600, 420⟩),
    ("foo.log", ⟨"", t0810_0000, 420⟩)], []⟩

/-- The one-file store of the C2 counterexample, with `os.MkdirAll` failing. -/
def fsC2 : FS := ⟨[("foo.log", ⟨"X", t0809_1600, 420⟩)], [FsOp.mkdirOp]⟩

/-- The handler state after the failed rotation check of the C2
counterexample: both timestamps advanced despite the error. -/
def fC2' : RotFile := { fileDay with prevRotateAt := t0809_1900, rotateAt := t0810_0100 }

instance : IsTotal timeSchedule schedLe := ⟨fun _ _ => Int.le_total _ _⟩

instance : IsTrans timeSchedule schedLe := ⟨fun _ _ _ h1 h2 => le_trans h1 h2⟩

instance : IsTotal (GoTime × String) newerLe := ⟨fun _ _ => Int.le_total _ _⟩

instance : IsTrans (GoTime × String) newerLe := ⟨fun _ _ _ h1 h2 => le_trans h2 h1⟩

/-- The daily fixture with a retention limit of one backup. -/
def fTrim : RotFile := { fileDay with backups := 1 }

/-- A store with the active file, two parseable backups, and two unrelated
files (one with the right prefix/suffix but an unparseable middle). -/
def fsTrim : FS :=
  ⟨[("foo.log", ⟨"A", t0810_0000, 420⟩),
    ("foo.100.log", ⟨"OLDER", t0810_0000, 420⟩),
    ("foo.200.log", ⟨"NEWER", t0810_0000, 420⟩),
    ("foo.weird.log", ⟨"UNRELATED", t0810_0000, 420⟩),
    ("bar.log", ⟨"OTHER", t0810_0000, 420⟩)], []⟩

/-! ## Helper lemmas -/

theorem civilFromDays_day_range (z : Int) :
    1 ≤ (civilFromDays z).2.2 ∧ (civilFromDays z).2.2 ≤ 31 := by
  unfold civilFromDays
  dsimp only
  omega

theorem daysIn_pos (m year : Int) : 1 ≤ daysIn m year := by
  unfold daysIn GoTime.day GoTime.civil
  exact (civilFromDays_day_range _).1

theorem interval_pos (r : WhenRotate) (t : GoTime) : 0 < interval r t := by
  unfold interval
  have := daysIn_pos t.month t.year
  split_ifs <;> omega

theorem after_eq_true (a b : GoTime) : (a.after b = true) ↔ b.abs < a.abs := by
  simp [GoTime.after]

theorem rotTime_abs (f : RotFile) (t : GoTime) : (rotTime f t).abs = t.abs := by
  unfold rotTime GoTime.toUTC
  split <;> rfl

theorem rotTime_loc (f : RotFile) (t : GoTime) :
    (rotTime f t).loc = if f.useLocal then t.loc else 0 := by
  unfold rotTime GoTime.toUTC
  split <;> rfl

theorem nearest_loc (r : WhenRotate) (t : GoTime) (sch : timeSchedule) :
    (nearestScheduledTime r t sch).loc = t.loc := by
  unfold nearestScheduledTime timeDate
  split_ifs <;> rfl

theorem addTime_loc (r : WhenRotate) (t : GoTime) (n : Int) :
    (addTime r t n).loc = t.loc := by
  unfold addTime GoTime.add GoTime.addDate timeDate
  split_ifs <;> rfl

theorem calcLoop_snd_abs (r : WhenRotate) (t : GoTime) :
    ∀ (schs : List timeSchedule) (next lastOff : GoTime),
      t.abs < (calcLoop r t schs next lastOff).2.abs
  | [], next, lastOff => by
    unfold calcLoop
    split
    · next h => exact (after_eq_true _ _).1 h
    · have := interval_pos r t
      simp only [GoTime.add]
      omega
  | sch :: rest, next, lastOff => by
    unfold calcLoop
    dsimp only
    split
    · next h => exact (after_eq_true _ _).1 h
    · exact calcLoop_snd_abs r t rest _ lastOff

theorem calcLoop_fst_abs (r : WhenRotate) (t : GoTime) :
    ∀ (schs : List timeSchedule) (next lastOff : GoTime),
      next.abs ≤ t.abs → (calcLoop r t schs next lastOff).1.abs ≤ t.abs
  | [], next, lastOff => by
    intro hnext
    unfold calcLoop
    split
    · exact hnext
    · have := interval_pos r t
      simp only [GoTime.add]
      omega
  | sch :: rest, next, lastOff => by
    intro hnext
    unfold calcLoop
    dsimp only
    split
    · exact hnext
    · next h =>
      refine calcLoop_fst_abs r t rest _ lastOff ?_
      have := (after_eq_true (nearestScheduledTime r t sch) t).not.1 (by simpa using h)
      omega

theorem calcLoop_snd_loc (r : WhenRotate) (t : GoTime) :
    ∀ (schs : List timeSchedule) (next lastOff : GoTime),
      lastOff.loc = t.loc → (calcLoop r t schs next lastOff).2.loc = t.loc
  | [], next, lastOff => by
    intro hoff
    unfold calcLoop
    split
    · exact hoff
    · rfl
  | sch :: rest, next, lastOff => by
    intro hoff
    unfold calcLoop
    dsimp only
    split
    · exact nearest_loc r t sch
    · exact calcLoop_snd_loc r t rest _ lastOff hoff

theorem calcLoop_fst_loc (r : WhenRotate) (t : GoTime) :
    ∀ (schs : List timeSchedule) (next lastOff : GoTime),
      next.loc = t.loc → (calcLoop r t schs next lastOff).1.loc = t.loc
  | [], next, lastOff => by
    intro hnext
    unfold calcLoop
    split
    · exact hnext
    · rfl
  | sch :: rest, next, lastOff => by
    intro hnext
    unfold calcLoop
    dsimp only
    split
    · exact hnext
    · exact calcLoop_fst_loc r t rest _ lastOff (nearest_loc r t sch)

/-- Shared facts about any pair returned by `calcRotationTimes`:
`next` is strictly after the query instant and carries the zone selected by
`UseLocal`; `prev` is at or before the query instant and in the selected zone
except in the early-return branch, where it is the Go zero value. -/
theorem calcRotationTimes_spec (f : RotFile) (t p n : GoTime)
    (h : calcRotationTimes f t = some (p, n)) :
    t.abs < n.abs ∧ n.loc = (if f.useLocal then t.loc else 0) ∧
      (p = zeroTime ∨ (p.abs ≤ t.abs ∧ p.loc = (if f.useLocal then t.loc else 0))) := by
  unfold calcRotationTimes at h
  rcases hsch : f.schedule with _ | ⟨s0, rest⟩
  · rw [hsch] at h
    exact absurd h (by simp)
  · rw [hsch] at h
    dsimp only at h
    rw [← rotTime_loc f t, ← rotTime_abs f t]
    set t' := rotTime f t with ht'
    split at h
    · next hafter =>
      have hX := Option.some.inj h
      have hp : p = zeroTime := (congrArg Prod.fst hX).symm
      have hn := congrArg Prod.snd hX
      dsimp only at hn
      refine ⟨?_, ?_, Or.inl hp⟩
      · rw [← hn]; exact (after_eq_true _ _).1 hafter
      · rw [← hn, addTime_loc, nearest_loc]
    · next hafter =>
      have hfirst : (addTime f.whenR
          (nearestScheduledTime f.whenR t'
            ((s0 :: rest).getLast (List.cons_ne_nil s0 rest))) (-1)).abs ≤ t'.abs := by
        have := (after_eq_true _ t').not.1 (by simpa using hafter)
        omega
      have hX := Option.some.inj h
      have hp := congrArg Prod.fst hX
      have hn := congrArg Prod.snd hX
      dsimp only at hp hn
      refine ⟨?_, ?_, Or.inr ⟨?_, ?_⟩⟩
      · rw [← hn]; exact calcLoop_snd_abs f.whenR t' _ _ _
      · rw [← hn]
        exact calcLoop_snd_loc f.whenR t' _ _ _ (by rw [addTime_loc, nearest_loc])
      · rw [← hp]; exact calcLoop_fst_abs f.whenR t' _ _ _ hfirst
      · rw [← hp]
        exact calcLoop_fst_loc f.whenR t' _ _ _ (by rw [addTime_loc, nearest_loc])


/-! ## Configuration-invariance lemmas -/

theorem finishOpen_config (f : RotFile) (now : GoTime) (fs : FS) (mode : Int) :
    ((finishOpen f now fs mode).1).whenR = f.whenR ∧
    ((finishOpen f now fs mode).1).schedule = f.schedule ∧
    ((finishOpen f now fs mode).1).useLocal = f.useLocal := by
  unfold finishOpen
  repeat' split
  all_goals exact ⟨rfl, rfl, rfl⟩

theorem rotateOpen_config (f : RotFile) (now : GoTime) (fs : FS) :
    ((rotateOpen f now fs).1).whenR = f.whenR ∧
    ((rotateOpen f now fs).1).schedule = f.schedule ∧
    ((rotateOpen f now fs).1).useLocal = f.useLocal := by
  unfold rotateOpen
  dsimp only
  repeat' split
  all_goals first
    | exact ⟨rfl, rfl, rfl⟩
    | exact finishOpen_config _ _ _ _

/-- `calcRotationTimes` reads only the recurrence unit, the schedule and the
`UseLocal` flag of the handler state. -/
theorem calcRotationTimes_congr (f g : RotFile) (t : GoTime)
    (h1 : f.whenR = g.whenR) (h2 : f.schedule = g.schedule)
    (h3 : f.useLocal = g.useLocal) :
    calcRotationTimes f t = calcRotationTimes g t := by
  unfold calcRotationTimes rotTime
  rw [h1, h2, h3]

theorem rotateStep_calc (f : RotFile) (now t : GoTime) (fs : FS) :
    calcRotationTimes (rotateStep f now fs).1 t = calcRotationTimes f t := by
  obtain ⟨h1, h2, h3⟩ := rotateOpen_config { f with fileOpen := false } now fs
  exact calcRotationTimes_congr _ f t h1 h2 h3

/-! ## Claim theorems -/

/-- C1, counterexample.  With a successfully initialised configuration
(`When = "m"`, schedule day 31, `UseLocal = true`) and the query time
February 1 of year 0 in a `+08:00` location, `calcRotationTimes` takes its
early-return branch and yields `prev = zeroTime`, which is strictly after the
query time (so `prev ≤ t` fails) and lies in the UTC zone rather than the
local zone selected by `UseLocal`. -/
theorem calcRotationTimes_straddle_counterexample :
    fileInit { When := "m", RotationSchedule := ["31 0000:00"], UseLocal := true } =
      .ok { whenR := "m", timeRotationSchedule := [{ day := 31 }], UseLocal := true,
            Backups := 0, BackupTimeFormat := ".2006-01-02T1504-05" } ∧
    (calcRotationTimes { fileMonth31 with useLocal := true }
        (timeDate 0 2 1 0 0 0 28800)).map Prod.fst = some zeroTime ∧
    (timeDate 0 2 1 0 0 0 28800).abs < zeroTime.abs ∧
    zeroTime.loc ≠ (timeDate 0 2 1 0 0 0 28800).loc := by decide

/-- C1 (amended).  For every handler state and query time `t`, a pair
`(prev, next)` returned by `calcRotationTimes` satisfies: `t` is strictly
before `next`, and `next` is in the zone selected by `UseLocal`; `prev` is at
or before `t` whenever `t` is not before the Go zero time, and `prev` is
either the Go zero value (the early-return branch, which is in UTC) or an
anchor at or before `t` in the selected zone. -/
theorem calcRotationTimes_straddles (f : RotFile) (t p n : GoTime)
    (h : calcRotationTimes f t = some (p, n)) :
    t.abs < n.abs ∧ n.loc = (if f.useLocal then t.loc else 0) ∧
    (0 ≤ t.abs → p.abs ≤ t.abs) ∧
    (p = zeroTime ∨ (p.abs ≤ t.abs ∧ p.loc = (if f.useLocal then t.loc else 0))) := by
  obtain ⟨h1, h2, h3⟩ := calcRotationTimes_spec f t p n h
  refine ⟨h1, h2, ?_, h3⟩
  intro ht
  rcases h3 with h | h
  · rw [h]; exact ht
  · exact h.1

/-- Witness for C1's amended theorem at `fileMonth31`, queried on
February 1, 2021. -/
theorem calcRotationTimes_straddles_witness :
    (timeDate 2021 2 1 0 0 0 0).abs < (timeDate 2021 2 3 0 0 0 0).abs :=
  (calcRotationTimes_straddles fileMonth31 (timeDate 2021 2 1 0 0 0 0) zeroTime
    (timeDate 2021 2 3 0 0 0 0) (by decide)).1

/-- C10.  With the validated configuration `When = "m"`,
`RotationSchedule = ["31 0000:00"]` (single offset day 31) and query time
February 1, 2021, `calcRotationTimes` returns the Go zero value as `prev`
(the early-return branch: the earliest candidate anchor, Feb 31 normalised to
Mar 3 and shifted back one month to Feb 3, is strictly after the query), so
`prev` is not an actual past rotation instant. -/
theorem calcRotationTimes_zero_value_prev :
    fileInit { When := "m", RotationSchedule := ["31 0000:00"] } =
      .ok { whenR := fileMonth31.whenR, timeRotationSchedule := fileMonth31.schedule,
            UseLocal := fileMonth31.useLocal, Backups := 0,
            BackupTimeFormat := ".2006-01-02T1504-05" } ∧
    calcRotationTimes fileMonth31 (timeDate 2021 2 1 0 0 0 0) =
      some (zeroTime, timeDate 2021 2 3 0 0 0 0) ∧
    zeroTime = ⟨0, 0⟩ ∧
    (timeDate 2021 2 1 0 0 0 0).abs < (timeDate 2021 2 3 0 0 0 0).abs := by decide

/-- C5.  `parseTimeSchedule` bound-checks the day field only against the
generic range 1–31, regardless of month or unit: for the Year unit,
`"0232 1914:45"` fails with the day-range error (day 32), while
`"0231 1914:45"` succeeds although February never has 31 days; the same
day 31 is likewise accepted for the Month unit. -/
theorem parseTimeSchedule_day_bound :
    parseTimeSchedule "y" "0232 1914:45" = .error (.badDay 32) ∧
    parseTimeSchedule "y" "0231 1914:45" =
      .ok { month := 2, day := 31, hour := 19, minute := 14, second := 45 } ∧
    parseTimeSchedule "m" "31 1914:45" =
      .ok { day := 31, hour := 19, minute := 14, second := 45 } := by decide

/-- C9.  The rotation check is idempotent at a fixed current time: whatever
the first `checkAndRotate` did (rotated or not, failed or not), a second
`checkAndRotate` at the same `now` with no intervening write performs no
rotation, reports no error, and leaves the handler state and the file store
unchanged. -/
theorem checkAndRotate_idempotent (f : RotFile) (now : GoTime) (fs : FS)
    (f1 : RotFile) (fs1 : FS) (r1 : Bool) (e1 : Option FsOp)
    (h : checkAndRotate f now fs = some (f1, fs1, r1, e1)) :
    checkAndRotate f1 now fs1 = some (f1, fs1, false, none) := by
  unfold checkAndRotate at h ⊢
  cases hsr : shouldRotate f now with
  | false =>
    rw [hsr] at h
    simp only [Bool.false_eq_true, if_false] at h
    have hX := Option.some.inj h
    have hf1 : f = f1 := congrArg (fun x => x.1) hX
    have hfs1 : fs = fs1 := congrArg (fun x => x.2.1) hX
    rw [← hf1, ← hfs1, hsr]
    simp
  | true =>
    rw [hsr] at h
    simp only [if_true] at h
    rcases hc : calcRotationTimes (rotateStep f now fs).1 now with _ | pn
    · rw [hc] at h
      cases h
    · obtain ⟨p, n⟩ := pn
      rw [hc] at h
      have hX := Option.some.inj h
      have hf1 := congrArg (fun x => x.1) hX
      have hfs1 : (rotateStep f now fs).2.1 = fs1 := congrArg (fun x => x.2.1) hX
      dsimp only at hf1
      have hnext := (calcRotationTimes_spec _ now p n hc).1
      have hrot : f1.rotateAt = n := by rw [← hf1]
      have hsr2 : shouldRotate f1 now = false := by
        unfold shouldRotate
        rw [hrot]
        simp only [GoTime.after, decide_eq_false_iff_not, not_lt, rotTime_abs]
        omega
      rw [hsr2]
      simp

/-- Witness for C9: after the first rotation check of the daily fixture at
`t0810_0000`, the second check at the same time is a no-op. -/
theorem checkAndRotate_idempotent_witness :
    checkAndRotate fC9' t0810_0000 fsC9' = some (fC9', fsC9', false, none) :=
  checkAndRotate_idempotent fC9 t0810_0000 fsC9 fC9' fsC9' true none (by rfl)


/-- C2, counterexample.  A rotation check at `t0810_0000` on a handler due
since `t0809_1900` hits a failing `os.MkdirAll`: the I/O error is returned,
yet `prevRotateAt` moves from `t0809_1400` to `t0809_1900` and `rotateAt`
moves from `t0809_1900` to `t0810_0100` — the in-memory rotation timestamps
are not left unchanged, and the next write at the same time would not retry
(see the idempotence of the check). -/
theorem checkAndRotate_error_counterexample :
    (checkAndRotate fC9 t0810_0000 fsC2).map
        (fun r => (r.1.prevRotateAt, r.1.rotateAt, r.2.2.1, r.2.2.2)) =
      some (t0809_1900, t0810_0100, true, some FsOp.mkdirOp) ∧
    fC9.prevRotateAt = t0809_1400 ∧ fC9.rotateAt = t0809_1900 ∧
    t0809_1900 ≠ t0809_1400 ∧ t0810_0100 ≠ t0809_1900 := by decide

/-- C2 (amended).  Whenever `checkAndRotate` attempts a rotation, it reports
the rotation attempt's error verbatim but unconditionally recomputes
`(prevRotateAt, rotateAt)` from the current time — `updateRotateAt` runs
whether or not `rotate` failed, so a failed rotation does not leave the
previous decision in place for a retry. -/
theorem checkAndRotate_updates_despite_error (f : RotFile) (now : GoTime) (fs : FS)
    (f1 : RotFile) (fs1 : FS) (r1 : Bool) (e1 : Option FsOp)
    (hsr : shouldRotate f now = true)
    (h : checkAndRotate f now fs = some (f1, fs1, r1, e1)) :
    r1 = true ∧ e1 = (rotateStep f now fs).2.2 ∧
    calcRotationTimes f now = some (f1.prevRotateAt, f1.rotateAt) := by
  unfold checkAndRotate at h
  rw [hsr] at h
  simp only [if_true] at h
  rcases hc : calcRotationTimes (rotateStep f now fs).1 now with _ | pn
  · rw [hc] at h
    cases h
  · obtain ⟨p, n⟩ := pn
    rw [hc] at h
    have hX := Option.some.inj h
    have hf1 := congrArg (fun x => x.1) hX
    have hr1 : r1 = true := (congrArg (fun x => x.2.2.1) hX).symm
    have he1 : e1 = (rotateStep f now fs).2.2 := (congrArg (fun x => x.2.2.2) hX).symm
    dsimp only at hf1 hr1 he1
    refine ⟨hr1, he1, ?_⟩
    rw [← rotateStep_calc f now now fs, hc, ← hf1]

/-- Witness for C2's amended theorem: the concrete failing-mkdir scenario. -/
theorem checkAndRotate_updates_despite_error_witness :
    calcRotationTimes fC9 t0810_0000 = some (fC2'.prevRotateAt, fC2'.rotateAt) :=
  (checkAndRotate_updates_despite_error fC9 t0810_0000 fsC2 fC2' fsC2 true
    (some FsOp.mkdirOp) (by decide) (by rfl)).2.2

/-- C4, counterexample.  An empty `When` is not case-folded into
`{h, d, m, y}` (its lowercase form is the empty string, which `valid`
rejects), yet `init` succeeds: the empty value is silently defaulted to
`Day`, so it is not true that every `When` outside the accepted set yields a
validation error. -/
theorem fileInit_empty_when_counterexample :
    fileInit { When := "" } =
      .ok { whenR := "d", timeRotationSchedule := [{}], UseLocal := false,
            Backups := 0, BackupTimeFormat := ".2006-01-02T1504-05" } ∧
    whenValid (whenLower "") = false := by decide

/-- C4 (amended).  For a non-empty `When`, initialisation succeeds only when
the lower-cased value is one of `h`/`d`/`m`/`y` (case-insensitive), and any
other non-empty value yields the invalid-`When` validation error; an empty
`When` is instead defaulted to `Day`. -/
theorem fileInit_validates_when (c : FileConfig) :
    (∀ f', fileInit c = .ok f' →
      c.When = "" ∨ whenValid (whenLower c.When) = true) ∧
    (c.When ≠ "" → whenValid (whenLower c.When) = false →
      fileInit c = .error (.invalidWhen (whenLower c.When))) := by
  constructor
  · intro f' hok
    by_cases hw : c.When = ""
    · exact Or.inl hw
    · refine Or.inr ?_
      by_contra hv
      have hv' : whenValid (whenLower c.When) = false := by
        cases h2 : whenValid (whenLower c.When)
        · rfl
        · exact absurd h2 hv
      simp only [fileInit, if_neg hw, hv', Bool.false_eq_true, if_false] at hok
      exact Except.noConfusion hok
  · intro hw hv
    simp only [fileInit, if_neg hw, hv, Bool.false_eq_true, if_false]

/-- Witness for C4's amended theorem: `When = "HOUR"` lowers to `"hour"`,
which is not a single-letter code, so init fails. -/
theorem fileInit_validates_when_witness :
    fileInit { When := "HOUR" } = .error (.invalidWhen "hour") :=
  (fileInit_validates_when { When := "HOUR" }).2 (by decide) (by decide)


theorem parseSchedules_length (w : WhenRotate) :
    ∀ (l : List String) (schs : List timeSchedule),
      parseSchedules w l = .ok schs → schs.length = l.length
  | [], schs, h => by
    unfold parseSchedules at h
    rw [← Except.ok.inj h]
    rfl
  | s :: rest, schs, h => by
    unfold parseSchedules at h
    rcases h1 : parseTimeSchedule w s with e | sch
    · rw [h1] at h
      exact Except.noConfusion h
    · rw [h1] at h
      rcases h2 : parseSchedules w rest with e | schs' 
      · rw [h2] at h
        exact Except.noConfusion h
      · rw [h2] at h
        rw [← Except.ok.inj h]
        simpa using parseSchedules_length w rest schs' h2

/-- C6.  After a successful init the parsed schedule is non-empty and sorted
ascending by `approxDuration`; when zero rotation-schedule strings were
supplied it is exactly the singleton of the unit's natural default offset
(Hour/Day: the all-zero offset; Month: day 1; Year: day 1, month 1). -/
theorem fileInit_schedule_invariant (c : FileConfig) (f' : InitFile)
    (h : fileInit c = .ok f') :
    f'.timeRotationSchedule ≠ [] ∧
    List.Sorted schedLe f'.timeRotationSchedule ∧
    (c.RotationSchedule = [] →
      f'.timeRotationSchedule = [baseRotateTime f'.whenR] ∧
      ((f'.whenR = "h" ∨ f'.whenR = "d") → f'.timeRotationSchedule = [{}]) ∧
      (f'.whenR = "m" → f'.timeRotationSchedule = [{ day := 1 }]) ∧
      (f'.whenR = "y" → f'.timeRotationSchedule = [{ day := 1, month := 1 }])) := by
  unfold fileInit at h
  dsimp only at h
  generalize hw : (if c.When = "" then "d" else whenLower c.When) = w at h
  split at h
  · split at h
    · exact Except.noConfusion h
    · next schs hparse =>
      have hf := Except.ok.inj h
      subst hf
      dsimp only
      by_cases hrs : c.RotationSchedule = []
      · rw [if_pos hrs]
        refine ⟨by simp [List.insertionSort, List.orderedInsert], ?_, ?_⟩
        · exact List.sorted_insertionSort schedLe _
        · intro _
          refine ⟨by simp [List.insertionSort, List.orderedInsert], ?_, ?_, ?_⟩
          · rintro (hh | hh) <;> rw [hh] <;> rfl
          · intro hh; rw [hh]; rfl
          · intro hh; rw [hh]; rfl
      · rw [if_neg hrs]
        refine ⟨?_, List.sorted_insertionSort schedLe _, fun hh => absurd hh hrs⟩
        have hlen := parseSchedules_length _ _ _ hparse
        have hperm := List.perm_insertionSort schedLe schs
        intro hnil
        rw [hnil] at hperm
        have := hperm.symm.length_eq
        simp only [List.length_nil] at this
        rw [this] at hlen
        cases hcr : c.RotationSchedule with
        | nil => exact hrs hcr
        | cons a l => rw [hcr] at hlen; simp at hlen
  · exact Except.noConfusion h

/-- Witness for C6: the all-defaults configuration yields the daily unit with
the singleton all-zero offset. -/
theorem fileInit_schedule_invariant_witness :
    ({ whenR := "d", timeRotationSchedule := [{}], UseLocal := false, Backups := 0,
       BackupTimeFormat := ".2006-01-02T1504-05" } : InitFile).timeRotationSchedule ≠ [] :=
  (fileInit_schedule_invariant {} _ (by decide)).1

/-- C3, counterexample.  In the spec's scenario (`When = Day`, offsets 01:00 /
08:30 / 14:00 / 19:00, file last modified yesterday 16:00, opened today
00:00), the pair computed from the modified time is
(yesterday 14:00, yesterday 19:00) — `next` is yesterday 19:00, not today
01:00 — and the state after opening is (yesterday 19:00, today 01:00) —
`previous` is yesterday 19:00, not yesterday 14:00.  No single computed pair
equals (yesterday 14:00, today 01:00). -/
theorem openExisting_pair_counterexample :
    calcRotationTimes fileDay t0809_1600 = some (t0809_1400, t0809_1900) ∧
    t0809_1900 ≠ t0810_0100 ∧
    (openExistingOrNew fileDay t0810_0000 fsC9).map
        (fun r => (r.1.prevRotateAt, r.1.rotateAt)) = some (t0809_1900, t0810_0100) ∧
    t0809_1900 ≠ t0809_1400 := by decide

/-- C3 (amended).  In that scenario, opening computes
(previous, next) = (yesterday 14:00, yesterday 19:00) from the file's
modified time, performs the missed rotation immediately (before the open
completes): the backup is named from yesterday 14:00 and receives the old
content, a fresh empty active file is created, and the state is then
recomputed from the current time, leaving
(prevRotateAt, rotateAt) = (yesterday 19:00, today 01:00). -/
theorem openExisting_missed_rotation :
    fileInit { When := "d",
               RotationSchedule := ["0100:00", "0830:00", "1400:00", "1900:00"],
               UseLocal := true } =
      .ok { whenR := fileDay.whenR, timeRotationSchedule := fileDay.schedule,
            UseLocal := fileDay.useLocal, Backups := 0,
            BackupTimeFormat := ".2006-01-02T1504-05" } ∧
    calcRotationTimes fileDay t0809_1600 = some (t0809_1400, t0809_1900) ∧
    (openExistingOrNew fileDay t0810_0000 fsC9).map
        (fun r => (r.1.prevRotateAt, r.1.rotateAt, r.1.fileOpen, r.2.2.1, r.2.2.2,
                   fsLookup r.2.1 ("foo" ++ fmtAbs t0809_1400 ++ ".log"),
                   fsLookup r.2.1 "foo.log")) =
      some (t0809_1900, t0810_0100, true, true, none,
            some ⟨"X", t0809_1600, 420⟩, some ⟨"", t0810_0000, 420⟩) := by decide


/-! ## Store lemmas -/

theorem find?_setEntries_self (n : String) (d : FileData) :
    ∀ l : List (String × FileData),
      ((setEntries l n d).find? (fun e => e.1 == n)).map (·.2) = some d
  | [] => by simp [setEntries]
  | (k, v) :: rest => by
    unfold setEntries
    by_cases hk : k == n
    · simp [hk]
    · simp only [Bool.not_eq_true] at hk
      simp only [hk, Bool.false_eq_true, if_false, List.find?_cons, hk]
      exact find?_setEntries_self n d rest

theorem fsLookup_set_self (fs : FS) (n : String) (d : FileData) :
    fsLookup (fsSet fs n d) n = some d :=
  find?_setEntries_self n d fs.entries

theorem find?_setEntries_other (n m : String) (d : FileData) (h : ¬(m = n)) :
    ∀ l : List (String × FileData),
      (setEntries l n d).find? (fun e => e.1 == m) = l.find? (fun e => e.1 == m)
  | [] => by
    simp only [setEntries, List.find?_cons, List.find?_nil]
    have : (n == m) = false := by simpa using fun hh => h hh.symm
    simp [this]
  | (k, v) :: rest => by
    unfold setEntries
    by_cases hk : k == n
    · have hkn : k = n := by simpa using hk
      have h1 : (n == m) = false := by simpa using fun hh => h hh.symm
      have h2 : (k == m) = false := by
        subst hkn; exact h1
      simp [hk, List.find?_cons, h1, h2]
    · simp only [Bool.not_eq_true] at hk
      simp only [hk, Bool.false_eq_true, if_false, List.find?_cons]
      by_cases hkm : k == m
      · simp [hkm]
      · simp only [Bool.not_eq_true] at hkm
        simp only [hkm, Bool.false_eq_true]
        exact find?_setEntries_other n m d h rest

theorem fsLookup_set_other (fs : FS) (n m : String) (d : FileData) (h : ¬(m = n)) :
    fsLookup (fsSet fs n d) m = fsLookup fs m := by
  unfold fsLookup fsSet
  rw [find?_setEntries_other n m d h fs.entries]

theorem find?_eraseP_other (n m : String) (h : ¬(m = n)) :
    ∀ l : List (String × FileData),
      (l.eraseP (fun e => e.1 == n)).find? (fun e => e.1 == m) =
        l.find? (fun e => e.1 == m)
  | [] => rfl
  | (k, v) :: rest => by
    rw [List.eraseP_cons]
    by_cases hk : k == n
    · have hkn : k = n := by simpa using hk
      have h2 : (k == m) = false := by
        subst hkn; simpa using fun hh => h hh.symm
      simp [hk, cond_true, List.find?_cons, h2]
    · simp only [Bool.not_eq_true] at hk
      simp only [hk, cond_false, List.find?_cons]
      by_cases hkm : k == m
      · simp [hkm]
      · simp only [Bool.not_eq_true] at hkm
        simp only [hkm, Bool.false_eq_true]
        exact find?_eraseP_other n m h rest

theorem fsLookup_remove_other (fs : FS) (n m : String) (h : ¬(m = n)) :
    fsLookup (fsRemoveEntry fs n) m = fsLookup fs m := by
  unfold fsLookup fsRemoveEntry
  rw [find?_eraseP_other n m h fs.entries]

theorem find?_eraseP_self (n : String) :
    ∀ l : List (String × FileData), (l.map Prod.fst).Nodup →
      (l.eraseP (fun e => e.1 == n)).find? (fun e => e.1 == n) = none
  | [], _ => rfl
  | (k, v) :: rest, hnd => by
    rw [List.map_cons, List.nodup_cons] at hnd
    rw [List.eraseP_cons]
    by_cases hk : k == n
    · have hkn : k = n := by simpa using hk
      simp only [hk, cond_true]
      rw [List.find?_eq_none]
      rintro ⟨x1, x2⟩ hx hpx
      have hx1 : x1 = n := by simpa using hpx
      refine hnd.1 ?_
      rw [hkn, ← hx1]
      exact List.mem_map.mpr ⟨(x1, x2), hx, rfl⟩
    · simp only [Bool.not_eq_true] at hk
      simp only [hk, cond_false, List.find?_cons, hk, Bool.false_eq_true]
      exact find?_eraseP_self n rest hnd.2

theorem fsLookup_remove_self (fs : FS) (n : String)
    (hnd : (fs.entries.map Prod.fst).Nodup) :
    fsLookup (fsRemoveEntry fs n) n = none := by
  unfold fsLookup fsRemoveEntry
  rw [find?_eraseP_self n fs.entries hnd]
  rfl

theorem mem_keys_setEntries (n : String) (d : FileData) :
    ∀ (l : List (String × FileData)) (x : String),
      x ∈ (setEntries l n d).map Prod.fst → x ∈ l.map Prod.fst ∨ x = n
  | [], x => by
    unfold setEntries
    simp only [List.map_cons, List.map_nil, List.mem_singleton]
    exact fun hx => Or.inr hx
  | (k, v) :: rest, x => by
    unfold setEntries
    by_cases hk : k == n
    · simp only [hk, if_true, List.map_cons, List.mem_cons]
      intro hx
      rcases hx with hx | hx
      · exact Or.inr hx
      · exact Or.inl (Or.inr hx)
    · simp only [Bool.not_eq_true] at hk
      simp only [hk, Bool.false_eq_true, if_false, List.map_cons, List.mem_cons]
      intro hx
      rcases hx with hx | hx
      · exact Or.inl (Or.inl hx)
      · rcases mem_keys_setEntries n d rest x hx with h1 | h1
        · exact Or.inl (Or.inr h1)
        · exact Or.inr h1

theorem nodup_keys_setEntries (n : String) (d : FileData) :
    ∀ l : List (String × FileData), (l.map Prod.fst).Nodup →
      ((setEntries l n d).map Prod.fst).Nodup
  | [], _ => by
    unfold setEntries
    simp
  | (k, v) :: rest, hnd => by
    rw [List.map_cons, List.nodup_cons] at hnd
    unfold setEntries
    by_cases hk : k == n
    · have hkn : k = n := by simpa using hk
      simp only [hk, if_true, List.map_cons]
      exact List.nodup_cons.mpr ⟨by rw [← hkn]; exact hnd.1, hnd.2⟩
    · simp only [Bool.not_eq_true] at hk
      simp only [hk, Bool.false_eq_true, if_false, List.map_cons]
      refine List.nodup_cons.mpr ⟨?_, nodup_keys_setEntries n d rest hnd.2⟩
      intro hmem
      rcases mem_keys_setEntries n d rest k hmem with h1 | h1
      · exact hnd.1 h1
      · rw [h1] at hk
        simp at hk

theorem fsStat_no_fail (entries : List (String × FileData)) (n : String) :
    fsStat ⟨entries, []⟩ n = .ok (fsLookup ⟨entries, []⟩ n) := rfl

theorem fsSet_failing (fs : FS) (n : String) (d : FileData) :
    (fsSet fs n d).failing = fs.failing := rfl

theorem fsRemoveEntry_failing (fs : FS) (n : String) :
    (fsRemoveEntry fs n).failing = fs.failing := rfl

theorem contains_nil (op : FsOp) : ([] : List FsOp).contains op = false := rfl

/-- C7.  During a rotation with a non-empty active file (over a store with no
injected faults and distinct names), the backup destination is the name built
from `prevRotateAt` (not the current time) with the backup time format; when
no backup of that name exists the active file's data is moved there intact
(rename), and when one already exists the active file's content is appended
to it and the active file is deleted rather than overwriting the backup; in
both cases a fresh empty active file is created and every other name is left
untouched. -/
theorem rotateOpen_backup_dest (f : RotFile) (now : GoTime) (fs : FS)
    (hfail : fs.failing = [])
    (hnodup : (fs.entries.map Prod.fst).Nodup)
    (d : FileData) (hstat : fsLookup fs f.filename = some d)
    (hne : 0 < d.content.length)
    (hdst : ¬(filenameWithTimestamp f (rotTime f f.prevRotateAt) = f.filename)) :
    (rotateOpen f now fs).2.2 = none ∧
    (rotateOpen f now fs).1 = { f with fileOpen := true } ∧
    fsLookup (rotateOpen f now fs).2.1 f.filename = some ⟨"", now, d.mode⟩ ∧
    (∀ name, ¬(name = filenameWithTimestamp f (rotTime f f.prevRotateAt)) →
      ¬(name = f.filename) →
      fsLookup (rotateOpen f now fs).2.1 name = fsLookup fs name) ∧
    (fsLookup fs (filenameWithTimestamp f (rotTime f f.prevRotateAt)) = none →
      fsLookup (rotateOpen f now fs).2.1
        (filenameWithTimestamp f (rotTime f f.prevRotateAt)) = some d) ∧
    (∀ b, fsLookup fs (filenameWithTimestamp f (rotTime f f.prevRotateAt)) = some b →
      fsLookup (rotateOpen f now fs).2.1
        (filenameWithTimestamp f (rotTime f f.prevRotateAt)) =
        some { b with content := b.content ++ d.content, modTime := now }) := by
  obtain ⟨entries, failing⟩ := fs
  dsimp only at hfail
  subst hfail
  have hfn : ¬(f.filename = filenameWithTimestamp f (rotTime f f.prevRotateAt)) :=
    fun hh => hdst hh.symm
  rcases hdl : fsLookup ⟨entries, []⟩ (filenameWithTimestamp f (rotTime f f.prevRotateAt))
    with _ | b
  · -- no backup of the destination name exists: rename
    have h1 : fsLookup (fsSet (fsRemoveEntry ⟨entries, []⟩ f.filename)
        (filenameWithTimestamp f (rotTime f f.prevRotateAt)) d) f.filename = none := by
      rw [fsLookup_set_other _ _ _ _ hfn, fsLookup_remove_self _ _ hnodup]
    have hrun : rotateOpen f now ⟨entries, []⟩ =
        ({ f with fileOpen := true },
         fsSet (fsSet (fsRemoveEntry ⟨entries, []⟩ f.filename)
           (filenameWithTimestamp f (rotTime f f.prevRotateAt)) d)
           f.filename ⟨"", now, d.mode⟩,
         none) := by
      unfold rotateOpen finishOpen fsRename
      simp only [fsStat_no_fail, hstat, hdl, fsSet_failing, fsRemoveEntry_failing,
        contains_nil, Bool.false_eq_true, if_false, if_pos hne, decide_eq_true hne,
        if_true, h1]
    rw [hrun]
    refine ⟨rfl, rfl, fsLookup_set_self _ _ _, ?_, ?_, ?_⟩
    · intro name hnd1 hnd2
      rw [fsLookup_set_other _ _ _ _ hnd2, fsLookup_set_other _ _ _ _ hnd1,
        fsLookup_remove_other _ _ _ hnd2]
    · intro _
      rw [fsLookup_set_other _ _ _ _ hdst, fsLookup_set_self]
    · intro b hb
      exact Option.noConfusion hb
  · -- a backup of the destination name exists: append and remove
    have hnodup2 : (((fsSet ⟨entries, []⟩
        (filenameWithTimestamp f (rotTime f f.prevRotateAt))
        { b with content := b.content ++ d.content, modTime := now }).entries.map
          Prod.fst).Nodup) :=
      nodup_keys_setEntries _ _ _ hnodup
    have h1 : fsLookup (fsRemoveEntry (fsSet ⟨entries, []⟩
        (filenameWithTimestamp f (rotTime f f.prevRotateAt))
        { b with content := b.content ++ d.content, modTime := now }) f.filename)
        f.filename = none :=
      fsLookup_remove_self _ _ hnodup2
    have hrun : rotateOpen f now ⟨entries, []⟩ =
        ({ f with fileOpen := true },
         fsSet (fsRemoveEntry (fsSet ⟨entries, []⟩
           (filenameWithTimestamp f (rotTime f f.prevRotateAt))
           { b with content := b.content ++ d.content, modTime := now }) f.filename)
           f.filename ⟨"", now, d.mode⟩,
         none) := by
      unfold rotateOpen finishOpen
      simp only [fsStat_no_fail, hstat, hdl, fsSet_failing, fsRemoveEntry_failing,
        contains_nil, Bool.false_eq_true, if_false, if_pos hne, decide_eq_true hne,
        if_true, h1]
    rw [hrun]
    refine ⟨rfl, rfl, fsLookup_set_self _ _ _, ?_, ?_, ?_⟩
    · intro name hnd1 hnd2
      rw [fsLookup_set_other _ _ _ _ hnd2, fsLookup_remove_other _ _ _ hnd2,
        fsLookup_set_other _ _ _ _ hnd1]
    · intro hb
      exact Option.noConfusion hb
    · intro b' hb'
      have hbb : b = b' := Option.some.inj hb'
      subst hbb
      rw [fsLookup_set_other _ _ _ _ hdst, fsLookup_remove_other _ _ _ hdst,
        fsLookup_set_self]

/-- Witness for C7: the daily fixture rotating its one-entry store (the
rename branch). -/
theorem rotateOpen_backup_dest_witness :
    (rotateOpen fC9 t0810_0000 fsC9).2.2 = none :=
  (rotateOpen_backup_dest fC9 t0810_0000 fsC9 (by decide) (by decide)
    ⟨"X", t0809_1600, 420⟩ (by decide) (by decide) (by decide)).1

theorem backupEntry_snd (f : RotFile) (name : String) (p : GoTime × String)
    (h : backupEntry f name = some p) : p.2 = name := by
  unfold backupEntry at h
  split at h
  · rcases hp : f.backupParse (goTrimR (goTrimL name f.fileBase) f.ext) with _ | t
    · rw [hp] at h
      exact Option.noConfusion h
    · rw [hp] at h
      rw [← Option.some.inj h]
  · exact Option.noConfusion h

theorem map_snd_filterMap (f : RotFile) :
    ∀ l : List String, (l.filterMap (backupEntry f)).map Prod.snd =
      l.filter (fun n => (backupEntry f n).isSome)
  | [] => rfl
  | a :: rest => by
    rw [List.filterMap_cons, List.filter_cons]
    rcases hb : backupEntry f a with _ | p
    · simp only [Option.isSome_none, Bool.false_eq_true, if_false]
      exact map_snd_filterMap f rest
    · have hsnd := backupEntry_snd f a p hb
      simp only [Option.isSome_some, if_true, List.map_cons, hsnd]
      rw [map_snd_filterMap f rest]

theorem length_filterMap_eq_countP (g : String → Option (GoTime × String)) :
    ∀ l : List String, (l.filterMap g).length = l.countP (fun a => (g a).isSome)
  | [] => rfl
  | a :: rest => by
    rw [List.filterMap_cons, List.countP_cons]
    rcases hb : g a with _ | p
    · simp [hb, length_filterMap_eq_countP g rest]
    · simp [hb, length_filterMap_eq_countP g rest]

theorem eraseP_eq_filter (n : String) :
    ∀ l : List (String × FileData), (l.map Prod.fst).Nodup →
      l.eraseP (fun e => e.1 == n) = l.filter (fun e => !(e.1 == n))
  | [], _ => rfl
  | (k, v) :: rest, hnd => by
    rw [List.map_cons, List.nodup_cons] at hnd
    rw [List.eraseP_cons, List.filter_cons]
    by_cases hk : k == n
    · have hkn : k = n := by simpa using hk
      simp only [hk, cond_true, Bool.not_true, Bool.false_eq_true, if_false]
      symm
      rw [List.filter_eq_self]
      rintro ⟨x1, x2⟩ hx
      simp only [Bool.not_eq_true', beq_eq_false_iff_ne, ne_eq]
      intro he
      refine hnd.1 ?_
      rw [hkn, ← he]
      exact List.mem_map.mpr ⟨(x1, x2), hx, rfl⟩
    · simp only [Bool.not_eq_true] at hk
      simp only [hk, cond_false, Bool.not_false, if_true]
      rw [eraseP_eq_filter n rest hnd.2]

theorem trimFoldSpec :
    ∀ (R : List (GoTime × String)) (entries : List (String × FileData)),
      (entries.map Prod.fst).Nodup →
      (∀ p ∈ R, fsLookup ⟨entries, []⟩ p.2 ≠ none) →
      (R.map Prod.snd).Nodup →
      R.foldl trimRemove (⟨entries, []⟩, []) =
        (⟨entries.filter (fun e => !((R.map Prod.snd).contains e.1)), []⟩, [])
  | [], entries, _, _, _ => by
    rw [List.foldl_nil, List.map_nil]
    have : entries.filter (fun e => !(([] : List String).contains e.1)) = entries := by
      rw [List.filter_eq_self]
      intro a _
      rfl
    rw [this]
  | p :: R', entries, hnd, hmem, hsnd => by
    rw [List.foldl_cons]
    have hl : fsLookup ⟨entries, []⟩ p.2 ≠ none := hmem p (List.mem_cons_self p R')
    rcases hlk : fsLookup ⟨entries, []⟩ p.2 with _ | d
    · exact absurd hlk hl
    · have hstep : trimRemove (⟨entries, []⟩, []) p = (fsRemoveEntry ⟨entries, []⟩ p.2, []) := by
        unfold trimRemove
        simp [hlk, contains_nil]
      have hre : fsRemoveEntry ⟨entries, []⟩ p.2 =
          ⟨entries.filter (fun e => !(e.1 == p.2)), []⟩ := by
        unfold fsRemoveEntry
        rw [eraseP_eq_filter p.2 entries hnd]
      rw [hstep, hre]
      rw [List.map_cons, List.nodup_cons] at hsnd
      have hndf : ((entries.filter (fun e => !(e.1 == p.2))).map Prod.fst).Nodup :=
        List.Nodup.sublist (List.Sublist.map Prod.fst (List.filter_sublist entries)) hnd
      have hmemf : ∀ q ∈ R', fsLookup ⟨entries.filter (fun e => !(e.1 == p.2)), []⟩ q.2 ≠ none := by
        intro q hq
        have hqp : ¬(q.2 = p.2) := by
          intro he
          refine hsnd.1 ?_
          rw [← he]
          exact List.mem_map.mpr ⟨q, hq, rfl⟩
        rw [← hre, fsLookup_remove_other _ _ _ hqp]
        exact hmem q (List.mem_cons_of_mem p hq)
      rw [trimFoldSpec R' _ hndf hmemf hsnd.2]
      rw [List.filter_filter]
      have hpred : (fun (a : String × FileData) =>
          !(R'.map Prod.snd).contains a.1 && !(a.1 == p.2)) =
          (fun a => !(((p :: R').map Prod.snd).contains a.1)) := by
        funext a
        simp [List.contains_cons, Bool.not_or, Bool.and_comm]
      rw [hpred]

theorem fsLookup_filter_contains (S : List String) :
    ∀ (entries : List (String × FileData)) (n : String),
      fsLookup ⟨entries.filter (fun e => !(S.contains e.1)), []⟩ n =
        if S.contains n then none else fsLookup ⟨entries, []⟩ n
  | [], n => by
    cases S.contains n <;> simp [fsLookup]
  | (k, v) :: rest, n => by
    rw [List.filter_cons]
    by_cases hk : S.contains k
    · simp only [hk, Bool.not_true, Bool.false_eq_true, if_false]
      rw [fsLookup_filter_contains S rest n]
      by_cases hkn : k == n
      · have : k = n := by simpa using hkn
        subst this
        simp only [hk, if_true]
      · simp only [Bool.not_eq_true] at hkn
        cases hc : S.contains n
        · simp only [Bool.false_eq_true, if_false]
          unfold fsLookup
          rw [List.find?_cons]
          simp only [hkn, Bool.false_eq_true]
        · simp
    · simp only [hk, Bool.not_false, if_true]
      by_cases hkn : k == n
      · have hkn' : k = n := by simpa using hkn
        subst hkn'
        simp only [hk, Bool.false_eq_true, if_false]
        unfold fsLookup
        rw [List.find?_cons, List.find?_cons]
        simp [hkn]
      · simp only [Bool.not_eq_true] at hkn
        have h1 : fsLookup ⟨(k, v) :: rest.filter (fun e => !(S.contains e.1)), []⟩ n =
            fsLookup ⟨rest.filter (fun e => !(S.contains e.1)), []⟩ n := by
          unfold fsLookup
          rw [List.find?_cons]
          simp only [hkn, Bool.false_eq_true]
        have h2 : fsLookup ⟨(k, v) :: rest, []⟩ n = fsLookup ⟨rest, []⟩ n := by
          unfold fsLookup
          rw [List.find?_cons]
          simp only [hkn, Bool.false_eq_true]
        rw [h1, h2]
        exact fsLookup_filter_contains S rest n

theorem contains_eq_mem (S : List String) (n : String) : S.contains n = true ↔ n ∈ S :=
  List.elem_iff

theorem fsLookup_ne_none (entries : List (String × FileData)) (n : String)
    (h : n ∈ entries.map Prod.fst) : fsLookup ⟨entries, []⟩ n ≠ none := by
  unfold fsLookup
  intro hcon
  rw [Option.map_eq_none', List.find?_eq_none] at hcon
  obtain ⟨e, he, hfst⟩ := List.mem_map.mp h
  exact hcon e he (by simp [hfst])

theorem fsLookup_mem_of_ne_none (entries : List (String × FileData)) (n : String)
    (h : fsLookup ⟨entries, []⟩ n ≠ none) : n ∈ entries.map Prod.fst := by
  unfold fsLookup at h
  rcases hf : entries.find? (fun e => e.1 == n) with _ | e
  · rw [hf] at h
    simp at h
  · have hmem := List.mem_of_find?_eq_some hf
    have hpred := List.find?_some hf
    have he : e.1 = n := by simpa using hpred
    rw [← he]
    exact List.mem_map.mpr ⟨e, hmem, rfl⟩

theorem countP_split (p q : String → Bool) :
    ∀ l : List String,
      l.countP p = l.countP (fun a => p a && q a) + l.countP (fun a => p a && !q a)
  | [] => rfl
  | a :: rest => by
    rw [List.countP_cons, List.countP_cons, List.countP_cons]
    have := countP_split p q rest
    cases hp : p a <;> cases hq : q a <;> simp [hp, hq] <;> omega

theorem map_fst_filter_key (pred : String → Bool) :
    ∀ l : List (String × FileData),
      (l.filter (fun e => pred e.1)).map Prod.fst = (l.map Prod.fst).filter pred
  | [] => rfl
  | (k, v) :: rest => by
    rw [List.filter_cons, List.map_cons, List.filter_cons]
    cases hp : pred k
    · simp only [Bool.false_eq_true, if_false]
      exact map_fst_filter_key pred rest
    · simp only [if_true, List.map_cons]
      rw [map_fst_filter_key pred rest]

/-- C8.  With no injected faults and distinct names, `trim` is a no-op when
`Backups ≤ 0`; otherwise it reports no errors, touches no entry whose name
fails the `fileBase` prefix / `ext` suffix / parseable-timestamp filter,
deletes only matching entries, deletes only entries whose parsed timestamp is
at or below every kept matching entry's (the oldest excess), and keeps
exactly `min(matching, Backups)` matching entries. -/
theorem trim_spec (f : RotFile) (fs : FS)
    (hfail : fs.failing = [])
    (hnd : (fs.entries.map Prod.fst).Nodup) :
    (f.backups ≤ 0 → trim f fs = (fs, [])) ∧
    (0 < f.backups →
      (trim f fs).2 = [] ∧
      (∀ name, isBackupName f name = false →
        fsLookup (trim f fs).1 name = fsLookup fs name) ∧
      (∀ name, fsLookup (trim f fs).1 name = none → fsLookup fs name ≠ none →
        isBackupName f name = true) ∧
      (∀ n1 n2 p1 p2, backupEntry f n1 = some p1 → backupEntry f n2 = some p2 →
        fsLookup (trim f fs).1 n1 ≠ none →
        fsLookup fs n2 ≠ none → fsLookup (trim f fs).1 n2 = none →
        p2.1.abs ≤ p1.1.abs) ∧
      ((trim f fs).1.entries.map Prod.fst).countP (fun n => isBackupName f n) =
        min ((fs.entries.map Prod.fst).countP (fun n => isBackupName f n))
          f.backups.toNat) := by
  obtain ⟨entries, failing⟩ := fs
  dsimp only at hfail hnd
  subst hfail
  constructor
  · intro hb
    unfold trim
    rw [if_pos hb]
  · intro hb
    have hb' : ¬(f.backups ≤ 0) := by omega
    have htrim : trim f ⟨entries, []⟩ =
        (if f.backups <
            ((List.insertionSort newerLe
              ((List.insertionSort nameLe (entries.map Prod.fst)).filterMap
                (backupEntry f))).length : Int) then
          (List.insertionSort newerLe
            ((List.insertionSort nameLe (entries.map Prod.fst)).filterMap
              (backupEntry f))).drop f.backups.toNat
        else []).foldl trimRemove (⟨entries, []⟩, []) := by
      unfold trim
      rw [if_neg hb']
    set keys := entries.map Prod.fst with hkeys
    set names := List.insertionSort nameLe keys with hnames
    set BFIs := names.filterMap (backupEntry f) with hBFIs
    set sorted := List.insertionSort newerLe BFIs with hsortd
    set R := (if f.backups < (sorted.length : Int) then sorted.drop f.backups.toNat
      else []) with hR
    have hnamesperm : names.Perm keys := List.perm_insertionSort nameLe keys
    have hnamesnodup : names.Nodup := hnamesperm.nodup_iff.mpr hnd
    have hsndBF : BFIs.map Prod.snd =
        names.filter (fun n => (backupEntry f n).isSome) := map_snd_filterMap f names
    have hsndBFnodup : (BFIs.map Prod.snd).Nodup := by
      rw [hsndBF]
      exact hnamesnodup.filter _
    have hsortperm : sorted.Perm BFIs := List.perm_insertionSort newerLe BFIs
    have hsortsndnodup : (sorted.map Prod.snd).Nodup :=
      ((hsortperm.map Prod.snd).nodup_iff).mpr hsndBFnodup
    have hRsubl : R.Sublist sorted := by
      rw [hR]
      by_cases hc : f.backups < (sorted.length : Int)
      · rw [if_pos hc]
        exact List.drop_sublist _ _
      · rw [if_neg hc]
        exact List.nil_sublist _
    have hRsnd : (R.map Prod.snd).Nodup :=
      List.Nodup.sublist (List.Sublist.map Prod.snd hRsubl) hsortsndnodup
    have hmemBFonly : ∀ p ∈ BFIs, backupEntry f p.2 = some p := by
      intro p hp
      obtain ⟨a, ha, hba⟩ := List.mem_filterMap.mp hp
      rw [backupEntry_snd f a p hba]
      exact hba
    have hmemkeys : ∀ p ∈ BFIs, p.2 ∈ keys := by
      intro p hp
      obtain ⟨a, ha, hba⟩ := List.mem_filterMap.mp hp
      rw [backupEntry_snd f a p hba]
      exact hnamesperm.mem_iff.mp ha
    have hlookupR : ∀ p ∈ R, fsLookup ⟨entries, []⟩ p.2 ≠ none := by
      intro p hp
      exact fsLookup_ne_none entries p.2
        (hmemkeys p (hsortperm.mem_iff.mp (hRsubl.subset hp)))
    have hfold := trimFoldSpec R entries hnd hlookupR hRsnd
    rw [htrim, hfold]
    set S := R.map Prod.snd with hS
    have hSmem : ∀ n ∈ S, (backupEntry f n).isSome = true ∧ n ∈ keys := by
      intro n hn
      obtain ⟨p, hp, hpn⟩ := List.mem_map.mp hn
      have hpB : p ∈ BFIs := hsortperm.mem_iff.mp (hRsubl.subset hp)
      constructor
      · rw [← hpn, hmemBFonly p hpB]
        rfl
      · rw [← hpn]
        exact hmemkeys p hpB
    have hcontains_false : ∀ n, ¬(n ∈ S) → S.contains n = false := by
      intro n hn
      cases hc : S.contains n
      · rfl
      · exact absurd ((contains_eq_mem S n).mp hc) hn
    refine ⟨rfl, ?_, ?_, ?_, ?_⟩
    · intro name hnb
      dsimp only
      rw [fsLookup_filter_contains]
      have hns : ¬(name ∈ S) := by
        intro hin
        have := (hSmem name hin).1
        unfold isBackupName at hnb
        rw [hnb] at this
        exact Bool.noConfusion this
      rw [hcontains_false name hns]
      simp
    · intro name h1 h2
      dsimp only at h1
      rw [fsLookup_filter_contains] at h1
      by_cases hc : S.contains name = true
      · unfold isBackupName
        exact (hSmem name ((contains_eq_mem S name).mp hc)).1
      · rw [hcontains_false name (fun hin => hc ((contains_eq_mem S name).mpr hin))] at h1
        simp only [Bool.false_eq_true, if_false] at h1
        exact absurd h1 h2
    · intro n1 n2 p1 p2 hbe1 hbe2 hkept hdel1 hdel2
      dsimp only at hkept hdel2
      rw [fsLookup_filter_contains] at hkept hdel2
      have hn2S : n2 ∈ S := by
        by_cases hc : S.contains n2 = true
        · exact (contains_eq_mem S n2).mp hc
        · rw [hcontains_false n2 (fun hin => hc ((contains_eq_mem S n2).mpr hin))] at hdel2
          simp only [Bool.false_eq_true, if_false] at hdel2
          exact absurd hdel2 hdel1
      obtain ⟨q, hq, hqn⟩ := List.mem_map.mp hn2S
      have hqB : q ∈ BFIs := hsortperm.mem_iff.mp (hRsubl.subset hq)
      have hq2 : q = p2 := by
        have h := hmemBFonly q hqB
        rw [hqn] at h
        exact Option.some.inj (h.symm.trans hbe2)
      rw [hq2] at hq
      have hn1S : ¬(n1 ∈ S) := by
        intro hin
        rw [(contains_eq_mem S n1).mpr hin] at hkept
        simp at hkept
      have hkeptsome : fsLookup ⟨entries, []⟩ n1 ≠ none := by
        rw [hcontains_false n1 hn1S] at hkept
        simpa using hkept
      have hn1keys : n1 ∈ keys := fsLookup_mem_of_ne_none entries n1 hkeptsome
      have hn1BF : n1 ∈ BFIs.map Prod.snd := by
        rw [hsndBF, List.mem_filter]
        exact ⟨hnamesperm.mem_iff.mpr hn1keys, by rw [hbe1]; rfl⟩
      obtain ⟨q1, hq1, hq1n⟩ := List.mem_map.mp hn1BF
      have hq1p : q1 = p1 := by
        have h := hmemBFonly q1 hq1
        rw [hq1n] at h
        exact Option.some.inj (h.symm.trans hbe1)
      rw [hq1p] at hq1 hq1n
      have hp1sorted : p1 ∈ sorted := hsortperm.mem_iff.mpr hq1
      have hp1notR : ¬(p1 ∈ R) := fun hin =>
        hn1S (List.mem_map.mpr ⟨p1, hin, hq1n⟩)
      by_cases hcR : f.backups < (sorted.length : Int)
      · have hRdrop : R = sorted.drop f.backups.toNat := by
          rw [hR, if_pos hcR]
        have hp1take : p1 ∈ sorted.take f.backups.toNat := by
          have hsplit : p1 ∈ sorted.take f.backups.toNat ++ sorted.drop f.backups.toNat := by
            rw [List.take_append_drop]
            exact hp1sorted
          rcases List.mem_append.mp hsplit with h | h
          · exact h
          · exact absurd (hRdrop ▸ h) hp1notR
        have hsortedPW : List.Pairwise newerLe sorted :=
          List.sorted_insertionSort newerLe BFIs
        rw [← List.take_append_drop f.backups.toNat sorted] at hsortedPW
        have hcross := (List.pairwise_append.mp hsortedPW).2.2
        exact hcross p1 hp1take p2 (hRdrop ▸ hq)
      · rw [hR, if_neg hcR] at hq
        exact absurd hq (List.not_mem_nil p2)
    · dsimp only
      have hkeysres : (entries.filter (fun e => !(S.contains e.1))).map Prod.fst =
          keys.filter (fun n => !(S.contains n)) :=
        map_fst_filter_key (fun n => !(S.contains n)) entries
      rw [hkeysres, List.countP_filter]
      have hsplit := countP_split (fun n => isBackupName f n)
        (fun n => S.contains n) keys
      have hfirst : keys.countP (fun n => isBackupName f n && S.contains n) =
          keys.countP (fun n => S.contains n) := by
        refine List.countP_congr ?_
        intro x hx
        constructor
        · intro hh
          exact (Bool.and_eq_true _ _).mp hh |>.2
        · intro hh
          refine (Bool.and_eq_true _ _).mpr ⟨?_, hh⟩
          unfold isBackupName
          exact (hSmem x ((contains_eq_mem S x).mp hh)).1
      have hcount_mem : keys.countP (fun n => S.contains n) = S.length := by
        rw [List.countP_eq_length_filter]
        have hperm : (keys.filter (fun n => S.contains n)).Perm S := by
          rw [List.perm_ext_iff_of_nodup (hnd.filter _) hRsnd]
          intro a
          rw [List.mem_filter]
          constructor
          · rintro ⟨_, hc⟩
            exact (contains_eq_mem S a).mp hc
          · intro ha
            exact ⟨(hSmem a ha).2, (contains_eq_mem S a).mpr ha⟩
        exact hperm.length_eq
      have hmatch : sorted.length = keys.countP (fun n => isBackupName f n) := by
        rw [hsortperm.length_eq, hBFIs, length_filterMap_eq_countP]
        exact hnamesperm.countP_eq _
      have hSlen : S.length = R.length := List.length_map R Prod.snd
      have hkb : (f.backups.toNat : Int) = f.backups := Int.toNat_of_nonneg (by omega)
      by_cases hcR : f.backups < (sorted.length : Int)
      · have hRlen : R.length = sorted.length - f.backups.toNat := by
          rw [hR, if_pos hcR, List.length_drop]
        have hlt : f.backups.toNat < sorted.length := by omega
        omega
      · have hRlen : R.length = 0 := by
          rw [hR, if_neg hcR]
          rfl
        have hge : sorted.length ≤ f.backups.toNat := by omega
        omega

/-- Witness for C8: trimming the five-file store with `Backups = 1` removes
nothing it should not and reports no errors. -/
theorem trim_spec_witness : (trim fTrim fsTrim).2 = [] :=
  ((trim_spec fTrim fsTrim (by decide) (by decide)).2 (by decide)).1

end Logfeller
